import Mathlib

/-!
Verification of the session-synchronization reconciliation engine of
chrome/browser (SessionsSyncManager, SyncedSessionTracker, TabNodePool2),
as declared in src/sync/sessions2/sessions_sync_manager.h.

Only the header of the engine is present in the source tree; the method
bodies (sessions_sync_manager.cc, tab_node_pool2, synced_session_tracker)
are not.  Where a definition's body is missing from the tree it is
modelled from the specification's words, and its doc comment says so.
The inline code that is present in the header (current_machine_tag) is
embedded directly.

Maps (std::map / std::set in the source) are modelled as association
lists with replace-in-place update, which preserves key order the way
a std::map iteration order is stable under value update.
-/

namespace SessionsSync

/-- Lookup in an association list (models std::map::find). -/
def getAssoc {α β : Type} [DecidableEq α] (k : α) : List (α × β) → Option β
  | [] => none
  | (k2, v) :: rest => if k = k2 then some v else getAssoc k rest

/-- Insert-or-replace in an association list (models std::map::operator[ ] assignment):
replaces the value at the first occurrence of the key, or appends a new entry. -/
def setAssoc {α β : Type} [DecidableEq α] (k : α) (v : β) : List (α × β) → List (α × β)
  | [] => [(k, v)]
  | (k2, v2) :: rest => if k = k2 then (k, v) :: rest else (k2, v2) :: setAssoc k v rest

/-- Remove every entry with the given key (models std::map::erase). -/
def delAssoc {α β : Type} [DecidableEq α] (k : α) : List (α × β) → List (α × β)
  | [] => []
  | (k2, v) :: rest => if k = k2 then delAssoc k rest else (k2, v) :: delAssoc k rest

/-- Remove every occurrence of an element from a list. -/
def removeAll {α : Type} [DecidableEq α] (x : α) : List α → List α
  | [] => []
  | y :: rest => if x = y then removeAll x rest else y :: removeAll x rest

/-- Modelled from the spec: `TabNodePool2` (declared at
src/sync/sessions2/sessions_sync_manager.h:213, implementation file
tab_node_pool2 not in the tree).  Spec §4.1/§3: a pool of small integer
node ids per machine, each entry `(node_id) -> tab_id | FREE`;
`freeNodes` holds the freed ids available for reuse, `nodeMap` the
current `tab_id -> node_id` ownership, and `maxUsed` the count of node
ids ever introduced (ids are monotonically introduced, never renumbered). -/
structure TabNodePool2 where
  freeNodes : List Nat
  nodeMap : List (Nat × Nat)
  maxUsed : Nat
deriving Repr, DecidableEq

/-- Modelled from the spec: `Allocate(tab_id) -> node_id` of TabNodePool2
(spec §4.1) — returns a free node id, reused from the free pool if one is
available, else the next unused integer, and marks it owned by `tab_id`. -/
def TabNodePool2.Allocate (p : TabNodePool2) (tabId : Nat) : Nat × TabNodePool2 :=
  match p.freeNodes with
  | [] =>
    (p.maxUsed,
     { freeNodes := [], nodeMap := (tabId, p.maxUsed) :: p.nodeMap, maxUsed := p.maxUsed + 1 })
  | n :: rest =>
    (n, { freeNodes := rest, nodeMap := (tabId, n) :: p.nodeMap, maxUsed := p.maxUsed })

/-- Modelled from the spec: `Free(tab_id)` of TabNodePool2 (spec §4.1) —
marks the tab's node id free for reuse without renumbering; calling it on
an unknown tab is a no-op. -/
def TabNodePool2.Free (p : TabNodePool2) (tabId : Nat) : TabNodePool2 :=
  match getAssoc tabId p.nodeMap with
  | some n =>
    { freeNodes := n :: p.freeNodes, nodeMap := delAssoc tabId p.nodeMap, maxUsed := p.maxUsed }
  | none => p

/-- The node ids currently owned by some local tab. -/
def ownedNodeIds (p : TabNodePool2) : List Nat := p.nodeMap.map Prod.snd

/-- The tab ids currently owning a node id. -/
def ownedTabIds (p : TabNodePool2) : List Nat := p.nodeMap.map Prod.fst

/-- Well-formedness of a TabNodePool2 state: no duplicate free ids, no
duplicate ownership on either side, free ids disjoint from owned ids, and
every id ever handed out is below `maxUsed`. -/
abbrev PoolWF (p : TabNodePool2) : Prop :=
  p.freeNodes.Nodup ∧ (ownedNodeIds p).Nodup ∧ (ownedTabIds p).Nodup ∧
  (∀ n ∈ p.freeNodes, n ∉ ownedNodeIds p) ∧
  (∀ n ∈ p.freeNodes, n < p.maxUsed) ∧
  (∀ n ∈ ownedNodeIds p, n < p.maxUsed)

/-- Local tab-open/close state: the set of currently-open eligible local
tabs (those passing `ShouldSyncTab`) together with the local tab pool
(`local_tab_pool_` at src/sync/sessions2/sessions_sync_manager.h:213). -/
structure LocalTabState where
  openTabs : List Nat
  pool : TabNodePool2
deriving Repr, DecidableEq

/-- A local tab-open or tab-close operation, as observed by
OnLocalTabModified / AssociateTab. -/
inductive LocalOp where
  | openTab (tabId : Nat)
  | closeTab (tabId : Nat)
deriving Repr, DecidableEq

/-- Modelled from the spec: the effect of AssociateTab
(src/sync/sessions2/sessions_sync_manager.h:201, body not in the tree) on
the tab pool.  Opening a new eligible tab allocates a node id for it
(re-associating an already-open tab does not reallocate); closing a tab
frees its node id (a close for an unknown tab is a no-op, spec §4.1). -/
def LocalTabState.applyOp (st : LocalTabState) : LocalOp → LocalTabState
  | LocalOp.openTab t =>
    if t ∈ st.openTabs then st
    else { openTabs := t :: st.openTabs, pool := (st.pool.Allocate t).2 }
  | LocalOp.closeTab t =>
    { openTabs := removeAll t st.openTabs, pool := st.pool.Free t }

/-- The initial local state: no open tabs, empty pool. -/
def initialLocalTabState : LocalTabState :=
  { openTabs := [], pool := { freeNodes := [], nodeMap := [], maxUsed := 0 } }

/-- Run a sequence of local tab-open/close operations from the initial state. -/
def runLocalOps (ops : List LocalOp) : LocalTabState :=
  ops.foldl LocalTabState.applyOp initialLocalTabState

/-- One navigation history entry (spec §3 TabNavigation). -/
structure TabNavigation where
  url : String
  title : String
  timestamp : Nat
deriving Repr, DecidableEq

/-- One tab of a session (spec §3 SessionTab). -/
structure SessionTab where
  tabId : Nat
  tabNodeId : Nat
  navigations : List TabNavigation
  currentNavigationIndex : Nat
  pinned : Bool
deriving Repr, DecidableEq

/-- One window of a session (spec §3 SessionWindow): its id and the
on-screen order of its tab ids. -/
structure SessionWindow where
  windowId : Nat
  tabOrder : List Nat
deriving Repr, DecidableEq

/-- One device's session state (spec §3 SyncedSession). -/
structure SyncedSession where
  tag : String
  sessionName : String
  modifiedTime : Nat
  windows : List (Nat × SessionWindow)
deriving Repr, DecidableEq

/-- A replicated session record (sync_pb::SessionSpecifics): either a
header record carrying a device's window list, a window record, or a tab
record carrying one tab's state under its tab node id. -/
inductive SessionSpecifics where
  | header (tag : String) (sessionName : String) (windows : List (Nat × SessionWindow))
  | window (tag : String) (windowId : Nat) (w : SessionWindow)
  | tab (tag : String) (tabNodeId : Nat) (t : SessionTab)
deriving Repr, DecidableEq

/-- The machine tag a specifics record belongs to (session_tag, a
required field of sync_pb::SessionSpecifics). -/
def SessionSpecifics.sessionTag : SessionSpecifics → String
  | SessionSpecifics.header tag _ _ => tag
  | SessionSpecifics.window tag _ _ => tag
  | SessionSpecifics.tab tag _ _ => tag

/-- Modelled from the spec: the in-memory `SyncedSessionTracker`
(`session_tracker_` at src/sync/sessions2/sessions_sync_manager.h:209,
implementation synced_session_tracker not in the tree).  Sessions are
keyed by machine tag; tabs are keyed by (machine tag, tab id). -/
structure SyncedSessionTracker where
  sessions : List (String × SyncedSession)
  tabs : List ((String × Nat) × SessionTab)
deriving Repr, DecidableEq

/-- The empty tracker. -/
def emptyTracker : SyncedSessionTracker := { sessions := [], tabs := [] }

/-- Modelled from the spec: SyncedSessionTracker.GetSession — returns the
tracked session for a tag, or a fresh empty session on first contact
(foreign sessions are created on first ingest of a record, spec §3). -/
def getOrCreateSession (tag : String) (t : SyncedSessionTracker) : SyncedSession :=
  match getAssoc tag t.sessions with
  | some s => s
  | none => { tag := tag, sessionName := "", modifiedTime := 0, windows := [] }

/-- Modelled from the spec: UpdateTrackerWithForeignSession
(src/sync/sessions2/sessions_sync_manager.h:129, body not in the tree).
Applies one replicated record (header, window, or tab) to the tracker,
keyed by stable ids, using the record modification time to update
freshness; a header replaces the session's window list (spec §4.3, §3). -/
def UpdateTrackerWithForeignSession (specifics : SessionSpecifics)
    (modificationTime : Nat) (t : SyncedSessionTracker) : SyncedSessionTracker :=
  match specifics with
  | SessionSpecifics.header tag name ws =>
    let sess := getOrCreateSession tag t
    let newSess :=
      { sess with sessionName := name, modifiedTime := modificationTime, windows := ws }
    { t with sessions := setAssoc tag newSess t.sessions }
  | SessionSpecifics.window tag wid w =>
    let sess := getOrCreateSession tag t
    let newSess :=
      { sess with modifiedTime := modificationTime, windows := setAssoc wid w sess.windows }
    { t with sessions := setAssoc tag newSess t.sessions }
  | SessionSpecifics.tab tag nodeId tb =>
    let sess := getOrCreateSession tag t
    let newSess := { sess with modifiedTime := modificationTime }
    let newTab := { tb with tabNodeId := nodeId }
    { sessions := setAssoc tag newSess t.sessions,
      tabs := setAssoc (tag, tb.tabId) newTab t.tabs }

/-- The tab entries of the tracker belonging to one session tag. -/
def tabsOfSession (tag : String) :
    List ((String × Nat) × SessionTab) → List ((String × Nat) × SessionTab)
  | [] => []
  | e :: rest =>
    if e.1.1 = tag then e :: tabsOfSession tag rest else tabsOfSession tag rest

/-- Remove all tab entries of one session tag. -/
def delTabsOfSession (tag : String) :
    List ((String × Nat) × SessionTab) → List ((String × Nat) × SessionTab)
  | [] => []
  | e :: rest =>
    if e.1.1 = tag then delTabsOfSession tag rest else e :: delTabsOfSession tag rest

/-- Modelled from the spec: SyncedSessionTracker.LookupTabNodeIds (spec
§4.2) — the tab node ids owned by the session with the given tag. -/
def LookupTabNodeIds (tag : String) (t : SyncedSessionTracker) : List Nat :=
  (tabsOfSession tag t.tabs).map (fun e => e.2.tabNodeId)

/-- Modelled from the spec: SyncedSessionTracker.DeleteSession (spec
§4.2) — removes the session and all its windows/tabs from the index. -/
def DeleteSession (tag : String) (t : SyncedSessionTracker) : SyncedSessionTracker :=
  { sessions := delAssoc tag t.sessions, tabs := delTabsOfSession tag t.tabs }

/-- An error surfaced while applying one change record (syncer::SyncError):
only the malformed-record kind arises in the modelled core (spec §7). -/
inductive SyncSessionError where
  | malformedRecord
deriving Repr, DecidableEq

/-- An outgoing or incoming change record (syncer::SyncChange): an
add/update carrying specifics and the record modification time, or a
deletion tombstone for one tab node of a session. -/
inductive SyncChange where
  | addOrUpdate (specifics : SessionSpecifics) (modificationTime : Nat)
  | tombstone (tag : String) (tabNodeId : Nat)
deriving Repr, DecidableEq

/-- Modelled from the spec: TombstoneTab
(src/sync/sessions2/sessions_sync_manager.h:141, body not in the tree) —
builds the deletion SyncChange for one tab node. -/
def TombstoneTab (tag : String) (tabNodeId : Nat) : SyncChange :=
  SyncChange.tombstone tag tabNodeId

/-- Modelled from the spec: DeleteForeignSession
(src/sync/sessions2/sessions_sync_manager.h:158, body not in the tree).
For every tab node id owned by the session it appends a tombstone change
record to `change_output`, and removes the session from the tracker; both
effects of one call (spec §4.3). -/
def DeleteForeignSession (tag : String) (t : SyncedSessionTracker)
    (changeOutput : List SyncChange) : SyncedSessionTracker × List SyncChange :=
  (DeleteSession tag t,
   changeOutput ++ (LookupTabNodeIds tag t).map (TombstoneTab tag))

/-- Modelled from the spec: DisassociateForeignSession
(src/sync/sessions2/sessions_sync_manager.h:152, body not in the tree;
the header documents: removes a foreign session from internal
bookkeeping, returns true if the session was found and deleted, false if
no data was found, and will NOT trigger sync deletions).  The change
pipeline is passed through untouched. -/
def DisassociateForeignSession (tag : String) (t : SyncedSessionTracker)
    (changeOutput : List SyncChange) :
    Bool × SyncedSessionTracker × List SyncChange :=
  match getAssoc tag t.sessions with
  | some _ => (true, DeleteSession tag t, changeOutput)
  | none => (false, t, changeOutput)

/-- The per-record error of one change record (spec §7): a record whose
required session tag field is missing (empty) is a MalformedRecordError;
the record is dropped and processing continues. -/
def changeRecordError : SyncChange → Option SyncSessionError
  | SyncChange.addOrUpdate s _ =>
    if s.sessionTag = "" then some SyncSessionError.malformedRecord else none
  | SyncChange.tombstone _ _ => none

/-- Modelled from the spec: the application of one change record inside
ProcessSyncChanges (spec §4.3) — add/update dispatches to
UpdateTrackerWithForeignSession (a malformed record is dropped with an
error), delete dispatches to removal from the tracker. -/
def applySyncChange (t : SyncedSessionTracker) (c : SyncChange) :
    SyncedSessionTracker × Option SyncSessionError :=
  match c with
  | SyncChange.addOrUpdate s mtime =>
    if s.sessionTag = "" then (t, some SyncSessionError.malformedRecord)
    else (UpdateTrackerWithForeignSession s mtime t, none)
  | SyncChange.tombstone tag _ => (DeleteSession tag t, none)

/-- Modelled from the spec: ProcessSyncChanges
(src/sync/sessions2/sessions_sync_manager.h:110, body not in the tree).
Applies every record of the batch in order, accumulating per-record
errors; the first error encountered is returned as the batch result while
later records are still applied (fail-soft per record, spec §4.3/§7). -/
def ProcessSyncChanges (t : SyncedSessionTracker) :
    List SyncChange → SyncedSessionTracker × Option SyncSessionError
  | [] => (t, none)
  | c :: rest =>
    let step := applySyncChange t c
    let restResult := ProcessSyncChanges step.1 rest
    (restResult.1,
     match step.2 with
     | some e => some e
     | none => restResult.2)

/-- Modelled from the spec: ForwardRelevantFaviconUpdatesToFaviconCache
(src/sync/sessions2/sessions_sync_manager.h:80, body not in the tree).
Intersects the set of updated favicon page URLs against the URLs
currently open in locally tracked tabs; returns, in order, the URLs
forwarded to the FaviconCache — exactly those of the update set that are
open locally (spec §4.3). -/
def ForwardRelevantFaviconUpdatesToFaviconCache
    (updatedFaviconPageUrls : List String) (localOpenTabUrls : List String) :
    List String :=
  updatedFaviconPageUrls.filter (fun u => decide (u ∈ localOpenTabUrls))

/-- Embedding of current_machine_tag()
(src/sync/sessions2/sessions_sync_manager.h:85-88, inline in the header):
DCHECK(!current_machine_tag_.empty()); return current_machine_tag_;
The DCHECK failure (empty stored tag) is modelled as `none`. -/
def current_machine_tag (storedMachineTag : String) : Option String :=
  if storedMachineTag.isEmpty then none else some storedMachineTag

/-- The return type of AssociateWindows as declared at
src/sync/sessions2/sessions_sync_manager.h:194: void.  (Its own doc
comment at lines 184-185 claims a boolean return.) -/
def AssociateWindowsReturnType : Type := Unit

/-- The number of entries of an association list carrying a given key. -/
def countKey {α β : Type} [DecidableEq α] (k : α) : List (α × β) → Nat
  | [] => 0
  | (k2, _) :: rest => (if k = k2 then 1 else 0) + countKey k rest

/-- Invariant of the local tab-association state (spec §3/§8): the tabs
owning node ids are exactly the open eligible tabs, without duplicates,
and the pool is well-formed. -/
def LocalInv (st : LocalTabState) : Prop :=
  ownedTabIds st.pool = st.openTabs ∧ st.openTabs.Nodup ∧ PoolWF st.pool

theorem getAssoc_setAssoc_self {α β : Type} [DecidableEq α] (k : α) (v : β)
    (l : List (α × β)) : getAssoc k (setAssoc k v l) = some v := by
  induction l with
  | nil => simp [getAssoc, setAssoc]
  | cons e rest ih =>
    obtain ⟨k2, v2⟩ := e
    by_cases h : k = k2 <;> simp [getAssoc, setAssoc, h, ih]

theorem setAssoc_idem {α β : Type} [DecidableEq α] (k : α) (v : β)
    (l : List (α × β)) : setAssoc k v (setAssoc k v l) = setAssoc k v l := by
  induction l with
  | nil => simp [setAssoc]
  | cons e rest ih =>
    obtain ⟨k2, v2⟩ := e
    by_cases h : k = k2 <;> simp [setAssoc, h, ih]

theorem getAssoc_delAssoc_self {α β : Type} [DecidableEq α] (k : α)
    (l : List (α × β)) : getAssoc k (delAssoc k l) = none := by
  induction l with
  | nil => simp [delAssoc, getAssoc]
  | cons e rest ih =>
    obtain ⟨k2, v2⟩ := e
    by_cases h : k = k2
    · subst h
      simp [delAssoc, ih]
    · simp [delAssoc, getAssoc, h, ih]

theorem getAssoc_eq_none_of_not_mem_keys {α β : Type} [DecidableEq α] (k : α)
    (l : List (α × β)) (h : k ∉ l.map Prod.fst) : getAssoc k l = none := by
  induction l with
  | nil => simp [getAssoc]
  | cons e rest ih =>
    obtain ⟨k2, v2⟩ := e
    simp only [List.map_cons, List.mem_cons, not_or] at h
    simp [getAssoc, h.1, ih h.2]

theorem mem_keys_of_getAssoc_some {α β : Type} [DecidableEq α] {k : α}
    {l : List (α × β)} {v : β} (h : getAssoc k l = some v) : k ∈ l.map Prod.fst := by
  induction l with
  | nil => simp [getAssoc] at h
  | cons e rest ih =>
    obtain ⟨k2, v2⟩ := e
    by_cases hk : k = k2
    · simp [hk]
    · simp only [getAssoc, hk, if_false] at h
      simp [ih h]

theorem mem_values_of_getAssoc_some {α β : Type} [DecidableEq α] {k : α}
    {l : List (α × β)} {v : β} (h : getAssoc k l = some v) : v ∈ l.map Prod.snd := by
  induction l with
  | nil => simp [getAssoc] at h
  | cons e rest ih =>
    obtain ⟨k2, v2⟩ := e
    by_cases hk : k = k2
    · simp only [getAssoc, hk, if_true, Option.some_inj] at h
      simp [h]
    · simp only [getAssoc, hk, if_false] at h
      simp [ih h]

theorem getAssoc_isSome_of_mem_keys {α β : Type} [DecidableEq α] {k : α}
    {l : List (α × β)} (h : k ∈ l.map Prod.fst) : (getAssoc k l).isSome := by
  induction l with
  | nil => simp at h
  | cons e rest ih =>
    obtain ⟨k2, v2⟩ := e
    by_cases hk : k = k2
    · simp [getAssoc, hk]
    · simp only [List.map_cons, List.mem_cons, hk, false_or] at h
      simp [getAssoc, hk, ih h]

theorem delAssoc_sublist {α β : Type} [DecidableEq α] (k : α)
    (l : List (α × β)) : (delAssoc k l).Sublist l := by
  induction l with
  | nil => simp [delAssoc]
  | cons e rest ih =>
    obtain ⟨k2, v2⟩ := e
    by_cases h : k = k2
    · simp only [delAssoc, if_pos h]
      exact ih.cons _
    · simp only [delAssoc, if_neg h]
      exact ih.cons₂ _

theorem removeAll_sublist {α : Type} [DecidableEq α] (x : α)
    (l : List α) : (removeAll x l).Sublist l := by
  induction l with
  | nil => simp [removeAll]
  | cons y rest ih =>
    by_cases h : x = y
    · simp only [removeAll, if_pos h]
      exact ih.cons _
    · simp only [removeAll, if_neg h]
      exact ih.cons₂ _

theorem keys_delAssoc {α β : Type} [DecidableEq α] (k : α)
    (l : List (α × β)) : (delAssoc k l).map Prod.fst = removeAll k (l.map Prod.fst) := by
  induction l with
  | nil => simp [delAssoc, removeAll]
  | cons e rest ih =>
    obtain ⟨k2, v2⟩ := e
    by_cases h : k = k2
    · subst h
      simp [delAssoc, removeAll, ih]
    · simp [delAssoc, removeAll, h, ih]

theorem removeAll_eq_self_of_not_mem {α : Type} [DecidableEq α] {x : α}
    {l : List α} (h : x ∉ l) : removeAll x l = l := by
  induction l with
  | nil => simp [removeAll]
  | cons y rest ih =>
    simp only [List.mem_cons, not_or] at h
    simp [removeAll, h.1, ih h.2]

theorem values_delAssoc_not_mem {α β : Type} [DecidableEq α] {k : α} {n : β}
    {l : List (α × β)} (hnodup : (l.map Prod.snd).Nodup)
    (h : getAssoc k l = some n) : n ∉ (delAssoc k l).map Prod.snd := by
  induction l with
  | nil => simp [getAssoc] at h
  | cons e rest ih =>
    obtain ⟨k2, v2⟩ := e
    simp only [List.map_cons, List.nodup_cons] at hnodup
    by_cases hk : k = k2
    · subst hk
      simp [getAssoc] at h
      subst h
      simp only [delAssoc, eq_self_iff_true, if_true]
      intro hmem
      exact hnodup.1 (List.Sublist.mem hmem ((delAssoc_sublist k rest).map Prod.snd))
    · simp only [getAssoc, hk, if_false] at h
      have hvn : v2 ≠ n := by
        intro he
        exact hnodup.1 (he ▸ mem_values_of_getAssoc_some h)
      simp only [delAssoc, hk, if_false, List.map_cons, List.mem_cons, not_or]
      exact ⟨fun he => hvn he.symm, ih hnodup.2 h⟩

theorem mem_keys_setAssoc {α β : Type} [DecidableEq α] (x k : α) (v : β)
    (l : List (α × β)) :
    x ∈ (setAssoc k v l).map Prod.fst ↔ x = k ∨ x ∈ l.map Prod.fst := by
  induction l with
  | nil => simp [setAssoc]
  | cons e rest ih =>
    obtain ⟨k2, v2⟩ := e
    by_cases h : k = k2
    · subst h
      simp [setAssoc]
    · simp only [setAssoc, if_neg h, List.map_cons, List.mem_cons, ih]
      tauto

theorem keys_nodup_setAssoc {α β : Type} [DecidableEq α] (k : α) (v : β)
    (l : List (α × β)) (h : (l.map Prod.fst).Nodup) :
    ((setAssoc k v l).map Prod.fst).Nodup := by
  induction l with
  | nil => simp [setAssoc]
  | cons e rest ih =>
    obtain ⟨k2, v2⟩ := e
    simp only [List.map_cons, List.nodup_cons] at h
    by_cases hk : k = k2
    · subst hk
      simp only [setAssoc, eq_self_iff_true, if_true, List.map_cons, List.nodup_cons]
      exact ⟨h.1, h.2⟩
    · simp only [setAssoc, if_neg hk, List.map_cons, List.nodup_cons]
      refine ⟨?_, ih h.2⟩
      intro hc
      rcases (mem_keys_setAssoc k2 k v rest).mp hc with he | hm
      · exact hk he.symm
      · exact h.1 hm

theorem countKey_eq_zero_of_not_mem {α β : Type} [DecidableEq α] {k : α}
    {l : List (α × β)} (h : k ∉ l.map Prod.fst) : countKey k l = 0 := by
  induction l with
  | nil => simp [countKey]
  | cons e rest ih =>
    obtain ⟨k2, v2⟩ := e
    simp only [List.map_cons, List.mem_cons, not_or] at h
    simp [countKey, h.1, ih h.2]

theorem countKey_setAssoc_self {α β : Type} [DecidableEq α] (k : α) (v : β)
    (l : List (α × β)) (h : (l.map Prod.fst).Nodup) :
    countKey k (setAssoc k v l) = 1 := by
  induction l with
  | nil => simp [setAssoc, countKey]
  | cons e rest ih =>
    obtain ⟨k2, v2⟩ := e
    simp only [List.map_cons, List.nodup_cons] at h
    by_cases hk : k = k2
    · subst hk
      simp [setAssoc, countKey, countKey_eq_zero_of_not_mem h.1]
    · simp [setAssoc, countKey, hk, ih h.2]

theorem applySyncChange_snd (t : SyncedSessionTracker) (c : SyncChange) :
    (applySyncChange t c).2 = changeRecordError c := by
  cases c with
  | addOrUpdate s m =>
    by_cases h : s.sessionTag = "" <;> simp [applySyncChange, changeRecordError, h]
  | tombstone tag n => rfl

/-- C1: DeleteForeignSession on a session with machine tag `tag` owning N
tab nodes appends exactly the N tombstone (deletion) change records for
those node ids to the change output, and — in the same single application
— removes the session from the tracker, so that looking the session up in
the tracker afterwards returns not-found. -/
theorem C1_deleteForeignSession_tombstones_then_removal
    (tag : String) (t : SyncedSessionTracker) (changeOutput : List SyncChange) :
    (DeleteForeignSession tag t changeOutput).2
      = changeOutput ++ (LookupTabNodeIds tag t).map (TombstoneTab tag) ∧
    ((DeleteForeignSession tag t changeOutput).2).length
      = changeOutput.length + (LookupTabNodeIds tag t).length ∧
    (DeleteForeignSession tag t changeOutput).1 = DeleteSession tag t ∧
    getAssoc tag ((DeleteForeignSession tag t changeOutput).1).sessions = none := by
  refine ⟨rfl, ?_, rfl, ?_⟩
  · simp [DeleteForeignSession]
  · simpa [DeleteForeignSession, DeleteSession] using
      getAssoc_delAssoc_self tag t.sessions

/-- C3: applying one replicated header/window/tab record to the tracker
twice in a row with the same record and modification time yields the same
tracker state as applying it once — tracker ingest is idempotent on
repeated identical input. -/
theorem C3_updateTracker_idempotent (specifics : SessionSpecifics)
    (modificationTime : Nat) (t : SyncedSessionTracker) :
    UpdateTrackerWithForeignSession specifics modificationTime
        (UpdateTrackerWithForeignSession specifics modificationTime t)
      = UpdateTrackerWithForeignSession specifics modificationTime t := by
  cases specifics with
  | header tag name ws =>
    simp [UpdateTrackerWithForeignSession, getOrCreateSession,
      getAssoc_setAssoc_self, setAssoc_idem]
  | window tag wid w =>
    simp [UpdateTrackerWithForeignSession, getOrCreateSession,
      getAssoc_setAssoc_self, setAssoc_idem]
  | tab tag nodeId tb =>
    simp [UpdateTrackerWithForeignSession, getOrCreateSession,
      getAssoc_setAssoc_self, setAssoc_idem]

/-- C5: ingesting a second header record for the same machine tag
replaces the previously tracked session rather than adding a duplicate:
afterwards the tracker holds exactly one session entry for that tag, and
its window list is the one of the later header. -/
theorem C5_header_replaces_not_appends (tag name1 name2 : String)
    (w1 w2 : List (Nat × SessionWindow)) (m1 m2 : Nat)
    (t : SyncedSessionTracker) (h : (t.sessions.map Prod.fst).Nodup) :
    countKey tag (UpdateTrackerWithForeignSession
        (SessionSpecifics.header tag name2 w2) m2
        (UpdateTrackerWithForeignSession
          (SessionSpecifics.header tag name1 w1) m1 t)).sessions = 1 ∧
    ∃ s, getAssoc tag (UpdateTrackerWithForeignSession
        (SessionSpecifics.header tag name2 w2) m2
        (UpdateTrackerWithForeignSession
          (SessionSpecifics.header tag name1 w1) m1 t)).sessions = some s ∧
      s.windows = w2 := by
  constructor
  · simp only [UpdateTrackerWithForeignSession]
    exact countKey_setAssoc_self tag _ _ (keys_nodup_setAssoc tag _ t.sessions h)
  · simp only [UpdateTrackerWithForeignSession]
    exact ⟨_, getAssoc_setAssoc_self tag _ _, rfl⟩

/-- C5 witness: the spec's concrete scenario — ingest a header for
"device-A" with window 1 holding tab 10, then a header with window 1
holding tabs 10 and 11; the tracker ends with exactly one entry for
"device-A" whose single window has ordered tabs 10, 11. -/
theorem C5_header_replaces_not_appends_witness :
    countKey "device-A" (UpdateTrackerWithForeignSession
        (SessionSpecifics.header "device-A" "A"
          [(1, { windowId := 1, tabOrder := [10, 11] })]) 7
        (UpdateTrackerWithForeignSession
          (SessionSpecifics.header "device-A" "A"
            [(1, { windowId := 1, tabOrder := [10] })]) 3 emptyTracker)).sessions = 1 ∧
    ∃ s, getAssoc "device-A" (UpdateTrackerWithForeignSession
        (SessionSpecifics.header "device-A" "A"
          [(1, { windowId := 1, tabOrder := [10, 11] })]) 7
        (UpdateTrackerWithForeignSession
          (SessionSpecifics.header "device-A" "A"
            [(1, { windowId := 1, tabOrder := [10] })]) 3 emptyTracker)).sessions = some s ∧
      s.windows = [(1, { windowId := 1, tabOrder := [10, 11] })] :=
  C5_header_replaces_not_appends "device-A" "A" "A"
    [(1, { windowId := 1, tabOrder := [10] })]
    [(1, { windowId := 1, tabOrder := [10, 11] })] 3 7 emptyTracker (by simp [emptyTracker])

/-- C6: the source declares AssociateWindows with return type void
(src/sync/sessions2/sessions_sync_manager.h:194), so a call returns no
value at all — the function cannot signal the boolean missing-header
outcome that its own doc comment (lines 184-185) and the claim describe. -/
theorem C6_associateWindows_returns_no_value :
    ∀ r s : AssociateWindowsReturnType, r = s := fun _ _ => rfl

/-- C7: ProcessSyncChanges applies every record of the batch — the final
tracker state is the plain left fold of the per-record application over
the whole batch, regardless of errors — and returns the first per-record
error of the batch (none if every record applied cleanly). -/
theorem C7_processSyncChanges_fail_soft (t : SyncedSessionTracker)
    (changes : List SyncChange) :
    (ProcessSyncChanges t changes).1
      = changes.foldl (fun st c => (applySyncChange st c).1) t ∧
    (ProcessSyncChanges t changes).2
      = (changes.filterMap changeRecordError).head? := by
  induction changes generalizing t with
  | nil => exact ⟨rfl, rfl⟩
  | cons c rest ih =>
    constructor
    · simp only [ProcessSyncChanges, List.foldl_cons]
      exact (ih (applySyncChange t c).1).1
    · simp only [ProcessSyncChanges, List.filterMap_cons, applySyncChange_snd]
      cases hc : changeRecordError c with
      | some e => simp
      | none => simpa using (ih (applySyncChange t c).1).2

/-- C8: ForwardRelevantFaviconUpdatesToFaviconCache forwards exactly the
updated favicon page URLs that are currently open in locally tracked
tabs: a URL is forwarded iff it is in the update set and open locally,
and (the update set being a set, hence duplicate-free) each such URL is
forwarded exactly once. -/
theorem C8_forward_only_locally_open_urls
    (updatedFaviconPageUrls localOpenTabUrls : List String)
    (h : updatedFaviconPageUrls.Nodup) :
    (∀ u, u ∈ ForwardRelevantFaviconUpdatesToFaviconCache
        updatedFaviconPageUrls localOpenTabUrls
      ↔ u ∈ updatedFaviconPageUrls ∧ u ∈ localOpenTabUrls) ∧
    (∀ u ∈ ForwardRelevantFaviconUpdatesToFaviconCache
        updatedFaviconPageUrls localOpenTabUrls,
      (ForwardRelevantFaviconUpdatesToFaviconCache
        updatedFaviconPageUrls localOpenTabUrls).count u = 1) := by
  constructor
  · intro u
    simp [ForwardRelevantFaviconUpdatesToFaviconCache, List.mem_filter]
  · intro u hu
    have hnodup : (ForwardRelevantFaviconUpdatesToFaviconCache
        updatedFaviconPageUrls localOpenTabUrls).Nodup := h.filter _
    exact List.count_eq_one_of_mem hnodup hu

/-- C8 witness: the spec's concrete scenario — updates for http a.com and
http b.com with only http a.com open locally forward exactly a.com, once. -/
theorem C8_forward_only_locally_open_urls_witness :
    (∀ u, u ∈ ForwardRelevantFaviconUpdatesToFaviconCache
        ["http://a.com", "http://b.com"] ["http://a.com"]
      ↔ u ∈ ["http://a.com", "http://b.com"] ∧ u ∈ ["http://a.com"]) ∧
    (∀ u ∈ ForwardRelevantFaviconUpdatesToFaviconCache
        ["http://a.com", "http://b.com"] ["http://a.com"],
      (ForwardRelevantFaviconUpdatesToFaviconCache
        ["http://a.com", "http://b.com"] ["http://a.com"]).count u = 1) :=
  C8_forward_only_locally_open_urls ["http://a.com", "http://b.com"]
    ["http://a.com"] (by decide)

/-- C9: DisassociateForeignSession touches only the in-memory tracker —
the change pipeline comes back unchanged (no tombstones are emitted) —
and returns true exactly when a session with the tag was tracked, in
which case the session is deleted from the tracker; when nothing was
tracked it returns false and leaves the tracker unchanged. -/
theorem C9_disassociate_no_sync_deletions (tag : String)
    (t : SyncedSessionTracker) (changeOutput : List SyncChange) :
    (DisassociateForeignSession tag t changeOutput).2.2 = changeOutput ∧
    (DisassociateForeignSession tag t changeOutput).1
      = (getAssoc tag t.sessions).isSome ∧
    (DisassociateForeignSession tag t changeOutput).2.1
      = (if (getAssoc tag t.sessions).isSome then DeleteSession tag t else t) ∧
    getAssoc tag (DeleteSession tag t).sessions = none := by
  cases hg : getAssoc tag t.sessions <;>
    simp [DisassociateForeignSession, hg, DeleteSession, getAssoc_delAssoc_self]

/-- C10: current_machine_tag() requires the stored machine tag to be
non-empty (the DCHECK); under that precondition it returns the stored tag
unchanged, while a call before initialization (empty stored tag) violates
the assertion, modelled as `none`. -/
theorem C10_current_machine_tag_requires_init (storedMachineTag : String)
    (h : storedMachineTag.isEmpty = false) :
    current_machine_tag storedMachineTag = some storedMachineTag ∧
    current_machine_tag "" = none := by
  constructor
  · simp [current_machine_tag, h]
  · rfl

/-- C10 witness: a concrete initialized machine tag is returned
unchanged, and the uninitialized (empty) tag trips the assertion. -/
theorem C10_current_machine_tag_requires_init_witness :
    current_machine_tag "session_sync_machine_tag_1" = some "session_sync_machine_tag_1" ∧
    current_machine_tag "" = none :=
  C10_current_machine_tag_requires_init "session_sync_machine_tag_1" (by decide)

/-- C4: on a well-formed pool, Allocate returns a node id currently owned
by no tab — the head of the free pool when one is available, else the
next unused integer maxUsed — and marks it owned by the requesting tab;
in particular after Free releases a tab's node id, the next Allocate
reuses that freed id rather than issuing a new one. -/
theorem C4_allocate_reuses_free_ids (p : TabNodePool2) (tabId : Nat)
    (h : PoolWF p) :
    ((p.Allocate tabId).1 ∉ ownedNodeIds p) ∧
    ((p.Allocate tabId).1 ∈ p.freeNodes ∨
      (p.freeNodes = [] ∧ (p.Allocate tabId).1 = p.maxUsed)) ∧
    getAssoc tabId ((p.Allocate tabId).2).nodeMap = some (p.Allocate tabId).1 ∧
    (∀ t n, getAssoc t p.nodeMap = some n → ((p.Free t).Allocate tabId).1 = n) := by
  obtain ⟨hfree, hown, htabs, hdisj, hfb, hob⟩ := h
  refine ⟨?_, ?_, ?_, ?_⟩
  · cases hp : p.freeNodes with
    | nil =>
      simp only [TabNodePool2.Allocate, hp]
      intro hmem
      exact absurd (hob _ hmem) (lt_irrefl _)
    | cons m rest =>
      simp only [TabNodePool2.Allocate, hp]
      exact hdisj m (by rw [hp]; exact List.mem_cons_self m rest)
  · cases hp : p.freeNodes with
    | nil =>
      right
      refine ⟨rfl, ?_⟩
      simp [TabNodePool2.Allocate, hp]
    | cons m rest =>
      left
      simp [TabNodePool2.Allocate, hp]
  · cases hp : p.freeNodes with
    | nil => simp [TabNodePool2.Allocate, hp, getAssoc]
    | cons m rest => simp [TabNodePool2.Allocate, hp, getAssoc]
  · intro t n h2
    simp [TabNodePool2.Free, h2, TabNodePool2.Allocate]

/-- C4 witness: a concrete well-formed pool where tabs 10 and 11 own
nodes 0 and 2 and node 1 has been freed; allocating for tab 12 takes the
freed node 1, records the ownership, and freeing an owned tab makes its
node the next one allocated. -/
theorem C4_allocate_reuses_free_ids_witness :
    ((TabNodePool2.Allocate
        { freeNodes := [1], nodeMap := [(10, 0), (11, 2)], maxUsed := 3 } 12).1
      ∉ ownedNodeIds { freeNodes := [1], nodeMap := [(10, 0), (11, 2)], maxUsed := 3 }) ∧
    ((TabNodePool2.Allocate
        { freeNodes := [1], nodeMap := [(10, 0), (11, 2)], maxUsed := 3 } 12).1
      ∈ ({ freeNodes := [1], nodeMap := [(10, 0), (11, 2)], maxUsed := 3 } : TabNodePool2).freeNodes ∨
      (({ freeNodes := [1], nodeMap := [(10, 0), (11, 2)], maxUsed := 3 } : TabNodePool2).freeNodes = [] ∧
        (TabNodePool2.Allocate
          { freeNodes := [1], nodeMap := [(10, 0), (11, 2)], maxUsed := 3 } 12).1
        = ({ freeNodes := [1], nodeMap := [(10, 0), (11, 2)], maxUsed := 3 } : TabNodePool2).maxUsed)) ∧
    getAssoc 12 ((TabNodePool2.Allocate
        { freeNodes := [1], nodeMap := [(10, 0), (11, 2)], maxUsed := 3 } 12).2).nodeMap
      = some (TabNodePool2.Allocate
        { freeNodes := [1], nodeMap := [(10, 0), (11, 2)], maxUsed := 3 } 12).1 ∧
    (∀ t n, getAssoc t
        ({ freeNodes := [1], nodeMap := [(10, 0), (11, 2)], maxUsed := 3 } : TabNodePool2).nodeMap
        = some n →
      ((TabNodePool2.Free
          { freeNodes := [1], nodeMap := [(10, 0), (11, 2)], maxUsed := 3 } t).Allocate 12).1 = n) :=
  C4_allocate_reuses_free_ids
    { freeNodes := [1], nodeMap := [(10, 0), (11, 2)], maxUsed := 3 } 12 (by decide)

theorem localInv_applyOp (st : LocalTabState) (op : LocalOp)
    (h : LocalInv st) : LocalInv (st.applyOp op) := by
  obtain ⟨hkeys, hopen, hfree, hown, htabs, hdisj, hfb, hob⟩ := h
  have hkeys2 : List.map Prod.fst st.pool.nodeMap = st.openTabs := hkeys
  cases op with
  | openTab t =>
    by_cases hmem : t ∈ st.openTabs
    · simp only [LocalTabState.applyOp, if_pos hmem]
      exact ⟨hkeys, hopen, hfree, hown, htabs, hdisj, hfb, hob⟩
    · simp only [LocalTabState.applyOp, if_neg hmem]
      cases hp : st.pool.freeNodes with
      | nil =>
        have hA : st.pool.Allocate t =
            (st.pool.maxUsed,
             { freeNodes := [],
               nodeMap := (t, st.pool.maxUsed) :: st.pool.nodeMap,
               maxUsed := st.pool.maxUsed + 1 }) := by
          simp [TabNodePool2.Allocate, hp]
        rw [hA]
        refine ⟨?_, ?_, ?_, ?_, ?_, ?_, ?_, ?_⟩
        · show t :: List.map Prod.fst st.pool.nodeMap = t :: st.openTabs
          rw [hkeys2]
        · exact List.nodup_cons.mpr ⟨hmem, hopen⟩
        · exact List.nodup_nil
        · refine List.nodup_cons.mpr ⟨?_, hown⟩
          intro hc
          exact absurd (hob _ hc) (lt_irrefl _)
        · refine List.nodup_cons.mpr ⟨?_, htabs⟩
          show t ∉ List.map Prod.fst st.pool.nodeMap
          rw [hkeys2]
          exact hmem
        · intro x hx
          exact absurd hx (List.not_mem_nil x)
        · intro x hx
          exact absurd hx (List.not_mem_nil x)
        · intro x hx
          rcases List.mem_cons.mp hx with he | hm2
          · exact he ▸ Nat.lt_succ_self _
          · exact Nat.lt_succ_of_lt (hob x hm2)
      | cons m rest =>
        have hA : st.pool.Allocate t =
            (m, { freeNodes := rest,
                  nodeMap := (t, m) :: st.pool.nodeMap,
                  maxUsed := st.pool.maxUsed }) := by
          simp [TabNodePool2.Allocate, hp]
        rw [hA]
        have hmfree : m ∈ st.pool.freeNodes := by
          rw [hp]; exact List.mem_cons_self m rest
        have hrest : ∀ x ∈ rest, x ∈ st.pool.freeNodes := by
          intro x hx
          rw [hp]; exact List.mem_cons_of_mem m hx
        have hmrest : m ∉ rest := (List.nodup_cons.mp (hp ▸ hfree)).1
        refine ⟨?_, ?_, ?_, ?_, ?_, ?_, ?_, ?_⟩
        · show t :: List.map Prod.fst st.pool.nodeMap = t :: st.openTabs
          rw [hkeys2]
        · exact List.nodup_cons.mpr ⟨hmem, hopen⟩
        · exact (List.nodup_cons.mp (hp ▸ hfree)).2
        · exact List.nodup_cons.mpr ⟨hdisj m hmfree, hown⟩
        · refine List.nodup_cons.mpr ⟨?_, htabs⟩
          show t ∉ List.map Prod.fst st.pool.nodeMap
          rw [hkeys2]
          exact hmem
        · intro x hx hc
          rcases List.mem_cons.mp hc with he | hc2
          · subst he
            exact hmrest hx
          · exact hdisj x (hrest x hx) hc2
        · intro x hx
          exact hfb x (hrest x hx)
        · intro x hx
          rcases List.mem_cons.mp hx with he | hm2
          · exact he ▸ hfb m hmfree
          · exact hob x hm2
  | closeTab t =>
    simp only [LocalTabState.applyOp]
    by_cases hmem : t ∈ st.openTabs
    · have ht : t ∈ ownedTabIds st.pool := by rw [hkeys]; exact hmem
      obtain ⟨n, hn⟩ := Option.isSome_iff_exists.mp (getAssoc_isSome_of_mem_keys ht)
      have hF : st.pool.Free t =
          { freeNodes := n :: st.pool.freeNodes,
            nodeMap := delAssoc t st.pool.nodeMap,
            maxUsed := st.pool.maxUsed } := by
        simp [TabNodePool2.Free, hn]
      rw [hF]
      refine ⟨?_, ?_, ?_, ?_, ?_, ?_, ?_, ?_⟩
      · show (delAssoc t st.pool.nodeMap).map Prod.fst = removeAll t st.openTabs
        rw [keys_delAssoc, hkeys2]
      · exact hopen.sublist (removeAll_sublist t st.openTabs)
      · refine List.nodup_cons.mpr ⟨?_, hfree⟩
        intro hc
        exact hdisj n hc (mem_values_of_getAssoc_some hn)
      · exact hown.sublist ((delAssoc_sublist t st.pool.nodeMap).map Prod.snd)
      · exact htabs.sublist ((delAssoc_sublist t st.pool.nodeMap).map Prod.fst)
      · intro x hx
        rcases List.mem_cons.mp hx with he | hm2
        · subst he
          exact values_delAssoc_not_mem hown hn
        · intro hc
          exact hdisj x hm2
            (List.Sublist.mem hc ((delAssoc_sublist t st.pool.nodeMap).map Prod.snd))
      · intro x hx
        rcases List.mem_cons.mp hx with he | hm2
        · exact he ▸ hob n (mem_values_of_getAssoc_some hn)
        · exact hfb x hm2
      · intro x hx
        exact hob x (List.Sublist.mem hx ((delAssoc_sublist t st.pool.nodeMap).map Prod.snd))
    · have ht : t ∉ ownedTabIds st.pool := by rw [hkeys]; exact hmem
      have hnone : getAssoc t st.pool.nodeMap = none :=
        getAssoc_eq_none_of_not_mem_keys t st.pool.nodeMap ht
      simp only [TabNodePool2.Free, hnone, removeAll_eq_self_of_not_mem hmem]
      exact ⟨hkeys, hopen, hfree, hown, htabs, hdisj, hfb, hob⟩

/-- C2: after any sequence of local tab-open/close operations starting
from the empty local state, the tabs owning node ids are exactly the
currently-open eligible tabs (no leaks), the open-tab list has no
duplicates, and no node id is owned by two tabs (the owned node ids are
pairwise distinct). -/
theorem C2_tab_pool_no_leaks_no_duplicates (ops : List LocalOp) :
    ownedTabIds (runLocalOps ops).pool = (runLocalOps ops).openTabs ∧
    ((runLocalOps ops).openTabs).Nodup ∧
    (ownedNodeIds (runLocalOps ops).pool).Nodup := by
  have hrun : ∀ st : LocalTabState, LocalInv st →
      LocalInv (ops.foldl LocalTabState.applyOp st) := by
    induction ops with
    | nil => exact fun st h => h
    | cons op rest ih =>
      intro st h
      exact ih (st.applyOp op) (localInv_applyOp st op h)
  have h0 : LocalInv initialLocalTabState := by
    refine ⟨rfl, List.nodup_nil, ?_⟩
    simp [PoolWF, initialLocalTabState, ownedNodeIds, ownedTabIds]
  obtain ⟨h1, h2, hWF⟩ := hrun initialLocalTabState h0
  exact ⟨h1, h2, hWF.2.1⟩

end SessionsSync
